import Mathlib

/-!
Shallow embedding of the schema-editor bridge subsystem of the md-editor
repository: the singleton `SchemaEditorBridgeManager`
(src/Bubble/schema-editor/SchemaEditorBridgeManager.ts) and the companion
hook `useSchemaEditorBridge` (src/Bubble/schema-editor/useSchemaEditorBridge.ts).

Modelling conventions:
- The JS `Map<string, BubbleHandler>` is an association list whose keys stay
  distinct (`mapSet` replaces in place, `mapDelete` removes the entry).
- `this.cleanup !== null` is the Boolean `bridgeOpen`.
- The handler closures produced by the hook read and write one mutable string
  cell, so `BubbleHandler.content` models that cell: `getContent()` reads it
  and `setContent(c)` overwrites it.
- `JSON.stringify(v, null, 2)` (an external builtin) is modelled by
  `jsonStringify` on an inductive JSON value type with integer numerics.
- JS truthiness of strings matters in two guards (`if (this.currentEditingId)`
  and `if (!id || !enabled)`): the empty string is falsy, and the embedding
  keeps that behaviour.
-/

namespace MdEditor

/-- Opaque teardown functions returned by preview renderers. The built-in
fallback returns the closure that unmounts the manager's preview root
(`unmountDefault`); custom renderers may return arbitrary other closures,
distinguished by a tag. -/
inductive Teardown where
  | unmountDefault : Teardown
  | custom : Nat → Teardown
deriving DecidableEq

/-- JSON-like values handed to the bridge callbacks (`SchemaValue` in the
source). Numbers are modelled as integers. -/
inductive SchemaValue where
  | null : SchemaValue
  | bool : Bool → SchemaValue
  | num : Int → SchemaValue
  | str : String → SchemaValue
  | arr : List SchemaValue → SchemaValue
  | obj : List (String × SchemaValue) → SchemaValue

/-- `BubbleHandler` from SchemaEditorBridgeManager.ts: `getContent` reads the
mutable content cell, `setContent` overwrites it, `renderPreview` is an
optional custom preview renderer. -/
structure BubbleHandler where
  content : String
  renderPreview : Option (SchemaValue → String → Option Teardown) := none

/-- `handler.getContent()`: read the content cell. -/
def BubbleHandler.getContent (h : BubbleHandler) : String := h.content

/-- `handler.setContent(c)`: overwrite the content cell. -/
def BubbleHandler.setContent (h : BubbleHandler) (c : String) : BubbleHandler :=
  { h with content := c }

/-- The preview React root: the container it was created on and the content it
last rendered. -/
structure PreviewRoot where
  container : String
  rendered : String

/-- `Map.get`: first (only) binding of the key, if any. -/
def mapGet {α : Type} : List (String × α) → String → Option α
  | [], _ => none
  | (k, v) :: rest, k0 => if k = k0 then some v else mapGet rest k0

/-- `Map.set`: replace the binding in place if the key is present, otherwise
append a new binding. -/
def mapSet {α : Type} : List (String × α) → String → α → List (String × α)
  | [], k0, v0 => [(k0, v0)]
  | (k, v) :: rest, k0, v0 =>
      if k = k0 then (k0, v0) :: rest else (k, v) :: mapSet rest k0 v0

/-- `Map.delete`: drop the binding of the key, if present. -/
def mapDelete {α : Type} : List (String × α) → String → List (String × α)
  | [], _ => []
  | (k, v) :: rest, k0 => if k = k0 then rest else (k, v) :: mapDelete rest k0

/-- `Map.has`. -/
def mapHas {α : Type} (m : List (String × α)) (k : String) : Bool :=
  (mapGet m k).isSome

/-- The keys of the map, in order. -/
def mapKeys {α : Type} (m : List (String × α)) : List String := m.map Prod.fst

/-- The mutable state of one `SchemaEditorBridgeManager` instance. -/
structure ManagerState where
  registry : List (String × BubbleHandler)
  bridgeOpen : Bool
  enabled : Bool
  previewRoot : Option PreviewRoot
  currentEditingId : Option String

/-- The state built by the private constructor. -/
def freshState : ManagerState :=
  { registry := [], bridgeOpen := false, enabled := false,
    previewRoot := none, currentEditingId := none }

/-- `startBridge()`: idempotent; if the cleanup function already exists it
returns at once, otherwise it opens the connection. -/
def startBridge (s : ManagerState) : ManagerState :=
  if s.bridgeOpen then s else { s with bridgeOpen := true }

/-- `stopBridge()`: invoke and drop the cleanup function if present. -/
def stopBridge (s : ManagerState) : ManagerState :=
  if s.bridgeOpen then { s with bridgeOpen := false } else s

/-- `setEnabled(enabled)`: store the flag, then start the bridge on a
false-to-true edge with a non-empty registry, or stop it on a true-to-false
edge. -/
def stepSetEnabled (s : ManagerState) (enabled : Bool) : ManagerState :=
  let wasEnabled := s.enabled
  let s1 : ManagerState := { s with enabled := enabled }
  if enabled && !wasEnabled && decide (0 < s1.registry.length) then
    startBridge s1
  else if !enabled && wasEnabled then
    stopBridge s1
  else
    s1

/-- `register(id, handler)`: insert or replace, and ensure the bridge is
started when enabled. -/
def stepRegister (s : ManagerState) (id : String) (h : BubbleHandler) :
    ManagerState :=
  let s1 : ManagerState := { s with registry := mapSet s.registry id h }
  if s1.enabled then startBridge s1 else s1

/-- `unregister(id)`: delete the entry and stop the bridge when the registry
becomes empty. -/
def stepUnregister (s : ManagerState) (id : String) : ManagerState :=
  let s1 : ManagerState := { s with registry := mapDelete s.registry id }
  if s1.registry.length = 0 then stopBridge s1 else s1

/-- `getRegistrySize()`. -/
def getRegistrySize (s : ManagerState) : Nat := s.registry.length

/-- `has(id)`. -/
def managerHas (s : ManagerState) (id : String) : Bool := mapHas s.registry id

/-- The state-mutating public calls of the manager. -/
inductive Op where
  | setEnabled : Bool → Op
  | register : String → BubbleHandler → Op
  | unregister : String → Op

/-- Apply one public call. -/
def stepOp (s : ManagerState) : Op → ManagerState
  | Op.setEnabled b => stepSetEnabled s b
  | Op.register id h => stepRegister s id h
  | Op.unregister id => stepUnregister s id

/-- Apply a sequence of public calls, left to right. -/
def runOps (s : ManagerState) (ops : List Op) : ManagerState :=
  ops.foldl stepOp s

/-- The connection invariant claimed by the spec: the bridge is open iff the
manager is enabled and the registry is non-empty. -/
def bridgeInv (s : ManagerState) : Prop :=
  s.bridgeOpen = (s.enabled && decide (0 < s.registry.length))

/-- Two spaces of indentation per nesting level, as `JSON.stringify(v, null, 2)`
produces. -/
def jsonIndent (level : Nat) : String :=
  String.join (List.replicate level "  ")

/-- One hexadecimal digit. -/
def hexDigit (n : Nat) : String :=
  if n < 10 then String.singleton (Char.ofNat (48 + n))
  else String.singleton (Char.ofNat (97 + (n - 10)))

/-- JSON string escaping of one character, as the JS builtin performs it. -/
def jsonEscapeChar (c : Char) : String :=
  if c = '"' then "\\\""
  else if c = '\\' then "\\\\"
  else if c = '\n' then "\\n"
  else if c = '\r' then "\\r"
  else if c = '\t' then "\\t"
  else if c.toNat = 8 then "\\b"
  else if c.toNat = 12 then "\\f"
  else if c.toNat < 32 then
    "\\u00" ++ hexDigit (c.toNat / 16) ++ hexDigit (c.toNat % 16)
  else String.singleton c

/-- A JSON string literal: quoted and escaped. -/
def jsonQuote (s : String) : String :=
  "\"" ++ String.join (s.toList.map jsonEscapeChar) ++ "\""

mutual

/-- Model of the JS builtin `JSON.stringify(v, null, 2)` at a given nesting
level (an external collaborator of the manager, with numbers restricted to
integers). -/
def jsonStringify : Nat → SchemaValue → String
  | _, SchemaValue.null => "null"
  | _, SchemaValue.bool true => "true"
  | _, SchemaValue.bool false => "false"
  | _, SchemaValue.num n => toString n
  | _, SchemaValue.str s => jsonQuote s
  | _, SchemaValue.arr [] => "[]"
  | level, SchemaValue.arr (x :: xs) =>
      "[\n" ++ String.intercalate ",\n" (jsonStringifyItems (level + 1) (x :: xs))
        ++ "\n" ++ jsonIndent level ++ "]"
  | _, SchemaValue.obj [] => "\x7b\x7d"
  | level, SchemaValue.obj (f :: fs) =>
      "\x7b\n" ++ String.intercalate ",\n" (jsonStringifyFields (level + 1) (f :: fs))
        ++ "\n" ++ jsonIndent level ++ "\x7d"

/-- The serialized items of a JSON array, each on its own indented line. -/
def jsonStringifyItems : Nat → List SchemaValue → List String
  | _, [] => []
  | level, v :: vs =>
      (jsonIndent level ++ jsonStringify level v) :: jsonStringifyItems level vs

/-- The serialized fields of a JSON object, each on its own indented line. -/
def jsonStringifyFields : Nat → List (String × SchemaValue) → List String
  | _, [] => []
  | level, (k, v) :: fs =>
      (jsonIndent level ++ jsonQuote k ++ ": " ++ jsonStringify level v)
        :: jsonStringifyFields level fs

end

/-- The value coercion used by `updateSchema` and `createDefaultPreview`:
`typeof schema === 'string' ? schema : JSON.stringify(schema, null, 2)`. -/
def coerceSchema : SchemaValue → String
  | SchemaValue.str s => s
  | v => jsonStringify 0 v

/-- The `getSchema` callback installed by `startBridge`: when the id is
unregistered, clear the current-editing id and return the undefined sentinel
(`none`); otherwise record the id as current-editing and return the handler's
content string. -/
def getSchema (s : ManagerState) (params : String) : ManagerState × Option String :=
  match mapGet s.registry params with
  | none => ({ s with currentEditingId := none }, none)
  | some h => ({ s with currentEditingId := some params }, some h.getContent)

/-- The `updateSchema` callback installed by `startBridge`: when the id is
unregistered return `false`; otherwise pass the coerced value to the handler's
`setContent` (which overwrites its content cell) and return `true`. -/
def updateSchema (s : ManagerState) (schema : SchemaValue) (params : String) :
    ManagerState × Bool :=
  match mapGet s.registry params with
  | none => (s, false)
  | some h =>
      ({ s with registry := mapSet s.registry params (h.setContent (coerceSchema schema)) },
       true)

/-- `createDefaultPreview(schema, containerId)`: if the document lookup of
`containerId` fails, return at once (no teardown, no state change); otherwise
coerce the value, reuse the preview root if one exists (else create one bound
to this container), render the content into it, and return the closure that
unmounts and clears the root. `document` tells which container ids the DOM
lookup finds. -/
def createDefaultPreview (document : String → Bool) (s : ManagerState)
    (schema : SchemaValue) (containerId : String) : ManagerState × Option Teardown :=
  if document containerId then
    let content := coerceSchema schema
    let root : PreviewRoot :=
      match s.previewRoot with
      | some r => { r with rendered := content }
      | none => { container := containerId, rendered := content }
    ({ s with previewRoot := some root }, some Teardown.unmountDefault)
  else
    (s, none)

/-- The closure returned by `createDefaultPreview`: if a preview root exists,
unmount it and null the field. -/
def runDefaultTeardown (s : ManagerState) : ManagerState :=
  match s.previewRoot with
  | some _ => { s with previewRoot := none }
  | none => s

/-- The `renderPreview` callback installed by `startBridge`: when the
current-editing id is truthy (set and non-empty, per JS truthiness) and its
registered handler supplies a custom `renderPreview`, delegate to it;
otherwise fall back to `createDefaultPreview`. -/
def renderPreviewCb (document : String → Bool) (s : ManagerState)
    (schema : SchemaValue) (containerId : String) : ManagerState × Option Teardown :=
  match s.currentEditingId with
  | some eid =>
      if eid.isEmpty then createDefaultPreview document s schema containerId
      else
        match mapGet s.registry eid with
        | some h =>
            match h.renderPreview with
            | some rp => (s, rp schema containerId)
            | none => createDefaultPreview document s schema containerId
        | none => createDefaultPreview document s schema containerId
  | none => createDefaultPreview document s schema containerId

/-- The instance state after the teardown steps of `destroy()` run, just
before the static reference is dropped: stop the bridge, clear the registry,
clear the current-editing id, unmount and null the preview root. -/
def destroyedState (s : ManagerState) : ManagerState :=
  let s1 := stopBridge s
  { s1 with registry := [], currentEditingId := none, previewRoot := none }

/-- `SchemaEditorBridgeManager.destroy()`: when an instance exists, run the
teardown steps on it and drop the static reference; when none exists, do
nothing. -/
def destroySingleton (inst : Option ManagerState) : Option ManagerState :=
  match inst with
  | none => none
  | some s =>
      let _torn := destroyedState s
      none

/-- `SchemaEditorBridgeManager.getInstance()`: create the instance on first
call; returns the instance together with the updated static reference. -/
def getInstance (inst : Option ManagerState) : ManagerState × Option ManagerState :=
  match inst with
  | none => (freshState, some freshState)
  | some s => (s, some s)

/-- Modelled from the spec: the state of `useRefState` (imported by
useSchemaEditorBridge.ts from ./useRefState, a file not among the sources).
Per the spec it keeps two co-located storage locations - a state value for
change-notification/rerender and a ref cell for synchronous read-back. -/
structure RefState where
  state : String
  ref : String

/-- Modelled from the spec: writing through `useRefState` updates the ref
cell synchronously on write, alongside the state value. -/
def refStateSet (_rs : RefState) (c : String) : RefState :=
  { state := c, ref := c }

/-- The hook's `setContent`: update the internal state (including the ref)
and invoke `onContentChange` with the new content; the returned list records
the callback invocations, in order, with their arguments. -/
def hookSetContent (rs : RefState) (newContent : String) : RefState × List String :=
  (refStateSet rs newContent, [newContent])

/-- `getContent` of the handler the hook registers: `() => contentRef.current`. -/
def hookHandlerGetContent (rs : RefState) : String := rs.ref

/-- JS truthiness of the hook's optional id: `undefined` and the empty string
are falsy. -/
def idTruthy : Option String → Bool
  | none => false
  | some i => !i.isEmpty

/-- The body of the hook's registration effect: when `!id || !enabled`,
unregister a previously registered truthy id and return; otherwise call
`manager.setEnabled(true)` and then `manager.register(id, handler)`. -/
def hookRegistrationEffect (id : Option String) (enabled : Bool)
    (h : BubbleHandler) (s : ManagerState) : ManagerState :=
  if !(idTruthy id) || !enabled then
    match id with
    | some i => if !i.isEmpty && managerHas s i then stepUnregister s i else s
    | none => s
  else
    match id with
    | some i => stepRegister (stepSetEnabled s true) i h
    | none => s

/-- Manager operations performed by the hook itself: the registration effect
body and the effect's cleanup (which only unregisters). -/
inductive HookOp where
  | effect : Option String → Bool → BubbleHandler → HookOp
  | cleanup : String → HookOp

/-- Apply one hook-driven operation to the manager. -/
def stepHookOp (s : ManagerState) : HookOp → ManagerState
  | HookOp.effect id en h => hookRegistrationEffect id en h s
  | HookOp.cleanup id => stepUnregister s id

/-- Apply a sequence of hook-driven operations, left to right. -/
def runHookOps (s : ManagerState) (ops : List HookOp) : ManagerState :=
  ops.foldl stepHookOp s

/-! ### Association-list lemmas -/

theorem mapSet_length_pos {α : Type} (m : List (String × α)) (k : String) (v : α) :
    0 < (mapSet m k v).length := by
  induction m with
  | nil => simp [mapSet]
  | cons hd tl ih =>
      obtain ⟨k0, v0⟩ := hd
      by_cases h : k0 = k <;> simp [mapSet, h]

theorem mapDelete_length_le {α : Type} (m : List (String × α)) (k : String) :
    (mapDelete m k).length ≤ m.length := by
  induction m with
  | nil => simp [mapDelete]
  | cons hd tl ih =>
      obtain ⟨k0, v0⟩ := hd
      by_cases h : k0 = k
      · simp [mapDelete, h]
      · simp [mapDelete, h]
        omega

theorem mapGet_mapSet_self {α : Type} (m : List (String × α)) (k : String) (v : α) :
    mapGet (mapSet m k v) k = some v := by
  induction m with
  | nil => simp [mapSet, mapGet]
  | cons hd tl ih =>
      obtain ⟨k0, v0⟩ := hd
      by_cases h : k0 = k <;> simp [mapSet, mapGet, h, ih]

theorem mapSet_length {α : Type} (m : List (String × α)) (k : String) (v : α) :
    (mapSet m k v).length =
      (if k ∈ mapKeys m then m.length else m.length + 1) := by
  induction m with
  | nil => simp [mapSet, mapKeys]
  | cons hd tl ih =>
      obtain ⟨k0, v0⟩ := hd
      by_cases h : k0 = k
      · simp [mapSet, mapKeys, h]
      · have hne : ¬ k = k0 := fun hk => h hk.symm
        by_cases hmem : k ∈ mapKeys tl <;>
          simp_all [mapSet, mapKeys, h, hne]

/-! ### Projection lemmas for the bridge start/stop helpers -/

theorem startBridge_bridgeOpen (s : ManagerState) :
    (startBridge s).bridgeOpen = true := by
  by_cases h : s.bridgeOpen <;> simp [startBridge, h]

theorem startBridge_registry (s : ManagerState) :
    (startBridge s).registry = s.registry := by
  by_cases h : s.bridgeOpen <;> simp [startBridge, h]

theorem startBridge_enabled (s : ManagerState) :
    (startBridge s).enabled = s.enabled := by
  by_cases h : s.bridgeOpen <;> simp [startBridge, h]

theorem stopBridge_bridgeOpen (s : ManagerState) :
    (stopBridge s).bridgeOpen = false := by
  by_cases h : s.bridgeOpen <;> simp [stopBridge, h]

theorem stopBridge_registry (s : ManagerState) :
    (stopBridge s).registry = s.registry := by
  by_cases h : s.bridgeOpen <;> simp [stopBridge, h]

theorem stopBridge_enabled (s : ManagerState) :
    (stopBridge s).enabled = s.enabled := by
  by_cases h : s.bridgeOpen <;> simp [stopBridge, h]

/-! ### C1: the connection invariant -/

theorem bridgeInv_fresh : bridgeInv freshState := by
  simp [bridgeInv, freshState]

theorem bridgeInv_stepOp {s : ManagerState} (hs : bridgeInv s) (op : Op) :
    bridgeInv (stepOp s op) := by
  obtain ⟨reg, bo, en, pr, cur⟩ := s
  simp only [bridgeInv] at hs
  cases op with
  | setEnabled b =>
      simp only [stepOp, stepSetEnabled, startBridge, stopBridge, bridgeInv] at *
      cases b <;> cases en <;> by_cases hl : 0 < reg.length <;> simp_all
  | register id h =>
      simp only [stepOp, stepRegister, startBridge, bridgeInv] at *
      cases en <;> simp_all [mapSet_length_pos]
  | unregister id =>
      simp only [stepOp, stepUnregister, bridgeInv] at *
      by_cases hz : (mapDelete reg id).length = 0
      · simp only [hz, if_pos]
        simp [stopBridge_bridgeOpen, stopBridge_enabled, stopBridge_registry, hz]
      · have h1 : 0 < (mapDelete reg id).length := Nat.pos_of_ne_zero hz
        have h2 : 0 < reg.length :=
          Nat.lt_of_lt_of_le h1 (mapDelete_length_le reg id)
        simp [hz, h1, h2] at *
        exact hs

theorem bridgeInv_runOps {s : ManagerState} (hs : bridgeInv s) (ops : List Op) :
    bridgeInv (runOps s ops) := by
  induction ops generalizing s with
  | nil => exact hs
  | cons op rest ih => exact ih (bridgeInv_stepOp hs op)

/-- C1: for every sequence of setEnabled/register/unregister calls starting
from a fresh manager instance, the external bridge connection is open iff the
enabled flag is true and the registry is non-empty; since the sequence is
arbitrary, the invariant holds after every state-mutating call. -/
theorem bridge_open_iff_enabled_and_nonempty (ops : List Op) :
    (runOps freshState ops).bridgeOpen = true ↔
      ((runOps freshState ops).enabled = true ∧
        0 < getRegistrySize (runOps freshState ops)) := by
  have h := bridgeInv_runOps bridgeInv_fresh ops
  simp only [bridgeInv] at h
  rw [h]
  simp [getRegistrySize]

/-! ### C4: setEnabled acts only on edges -/

/-- C4: calling setEnabled with the current flag value changes no state; a
false-to-true transition opens the connection exactly when the registry is
non-empty (idempotent when already open); a true-to-false transition closes
the connection. -/
theorem setEnabled_edge_semantics :
    (∀ s : ManagerState, stepSetEnabled s s.enabled = s) ∧
    (∀ s : ManagerState, s.enabled = false →
      ((stepSetEnabled s true).bridgeOpen
          = (s.bridgeOpen || decide (0 < getRegistrySize s)) ∧
        (s.bridgeOpen = false →
          ((stepSetEnabled s true).bridgeOpen = true ↔ 0 < getRegistrySize s)))) ∧
    (∀ s : ManagerState, s.enabled = true →
      (stepSetEnabled s false).bridgeOpen = false) := by
  refine ⟨?_, ?_, ?_⟩
  · intro s
    obtain ⟨reg, bo, en, pr, cur⟩ := s
    cases en <;> simp [stepSetEnabled]
  · intro s hen
    obtain ⟨reg, bo, en, pr, cur⟩ := s
    simp only at hen
    subst hen
    by_cases hl : 0 < reg.length <;>
      cases bo <;>
        simp [stepSetEnabled, startBridge, getRegistrySize, hl]
  · intro s hen
    obtain ⟨reg, bo, en, pr, cur⟩ := s
    simp only at hen
    subst hen
    cases bo <;> simp [stepSetEnabled, stopBridge]

/-- Witness for C4 at concrete states: a disabled one-entry manager, where a
same-value call is a no-op and enabling opens the bridge; and an enabled
manager whose disabling closes the bridge. -/
theorem setEnabled_edge_semantics_witness :
    (stepSetEnabled
        { registry := [("a", { content := "X" })], bridgeOpen := false,
          enabled := false, previewRoot := none, currentEditingId := none }
        false
      = { registry := [("a", { content := "X" })], bridgeOpen := false,
          enabled := false, previewRoot := none, currentEditingId := none }) ∧
    ((stepSetEnabled
        { registry := [("a", { content := "X" })], bridgeOpen := false,
          enabled := false, previewRoot := none, currentEditingId := none }
        true).bridgeOpen = true ↔
      0 < getRegistrySize
        { registry := [("a", { content := "X" })], bridgeOpen := false,
          enabled := false, previewRoot := none, currentEditingId := none }) ∧
    (stepSetEnabled
        { registry := [("a", { content := "X" })], bridgeOpen := true,
          enabled := true, previewRoot := none, currentEditingId := none }
        false).bridgeOpen = false := by
  refine ⟨?_, ?_, ?_⟩
  · exact setEnabled_edge_semantics.1 _
  · exact ((setEnabled_edge_semantics.2.1 _ rfl).2 rfl)
  · exact setEnabled_edge_semantics.2.2 _ rfl

/-! ### C5: registry size tracks the distinct live identifiers -/

theorem mapKeys_nil {α : Type} : mapKeys ([] : List (String × α)) = [] := rfl

theorem mapKeys_cons {α : Type} (a : String) (b : α) (l : List (String × α)) :
    mapKeys ((a, b) :: l) = a :: mapKeys l := rfl

theorem mapSet_cons_eq {α : Type} (k : String) (v : α) (k0 : String) (v0 : α)
    (tl : List (String × α)) (h : k0 = k) :
    mapSet ((k0, v0) :: tl) k v = (k, v) :: tl := by
  simp [mapSet, h]

theorem mapSet_cons_ne {α : Type} (k : String) (v : α) (k0 : String) (v0 : α)
    (tl : List (String × α)) (h : ¬ k0 = k) :
    mapSet ((k0, v0) :: tl) k v = (k0, v0) :: mapSet tl k v := by
  simp [mapSet, h]

theorem mapDelete_cons_eq {α : Type} (k : String) (k0 : String) (v0 : α)
    (tl : List (String × α)) (h : k0 = k) :
    mapDelete ((k0, v0) :: tl) k = tl := by
  simp [mapDelete, h]

theorem mapDelete_cons_ne {α : Type} (k : String) (k0 : String) (v0 : α)
    (tl : List (String × α)) (h : ¬ k0 = k) :
    mapDelete ((k0, v0) :: tl) k = (k0, v0) :: mapDelete tl k := by
  simp [mapDelete, h]

theorem mem_mapKeys_mapSet {α : Type} (m : List (String × α)) (k : String)
    (v : α) (x : String) :
    x ∈ mapKeys (mapSet m k v) ↔ x = k ∨ x ∈ mapKeys m := by
  induction m with
  | nil =>
      simp only [mapSet, mapKeys_cons, mapKeys_nil, List.mem_cons,
        List.not_mem_nil, or_false]
  | cons hd tl ih =>
      obtain ⟨k0, v0⟩ := hd
      by_cases h : k0 = k
      · rw [mapSet_cons_eq k v k0 v0 tl h, mapKeys_cons, mapKeys_cons]
        subst h
        simp only [List.mem_cons]
        tauto
      · rw [mapSet_cons_ne k v k0 v0 tl h, mapKeys_cons, mapKeys_cons]
        simp only [List.mem_cons, ih]
        tauto

theorem nodup_mapKeys_mapSet {α : Type} (m : List (String × α)) (k : String)
    (v : α) (hnd : (mapKeys m).Nodup) : (mapKeys (mapSet m k v)).Nodup := by
  induction m with
  | nil =>
      simp only [mapSet, mapKeys_cons, mapKeys_nil]
      exact List.nodup_singleton k
  | cons hd tl ih =>
      obtain ⟨k0, v0⟩ := hd
      rw [mapKeys_cons, List.nodup_cons] at hnd
      by_cases h : k0 = k
      · rw [mapSet_cons_eq k v k0 v0 tl h, mapKeys_cons, List.nodup_cons]
        subst h
        exact hnd
      · rw [mapSet_cons_ne k v k0 v0 tl h, mapKeys_cons, List.nodup_cons]
        refine ⟨?_, ih hnd.2⟩
        intro hmem
        rw [mem_mapKeys_mapSet] at hmem
        rcases hmem with h1 | h1
        · exact h h1
        · exact hnd.1 h1

theorem toFinset_mapKeys_mapSet {α : Type} (m : List (String × α)) (k : String)
    (v : α) :
    (mapKeys (mapSet m k v)).toFinset = insert k (mapKeys m).toFinset := by
  ext x
  simp only [List.mem_toFinset, Finset.mem_insert, mem_mapKeys_mapSet]

theorem mem_mapKeys_mapDelete {α : Type} (m : List (String × α)) (k : String)
    (x : String) (hnd : (mapKeys m).Nodup) :
    x ∈ mapKeys (mapDelete m k) ↔ x ∈ mapKeys m ∧ x ≠ k := by
  induction m with
  | nil => simp [mapDelete, mapKeys_nil]
  | cons hd tl ih =>
      obtain ⟨k0, v0⟩ := hd
      rw [mapKeys_cons, List.nodup_cons] at hnd
      by_cases h : k0 = k
      · rw [mapDelete_cons_eq k k0 v0 tl h, mapKeys_cons]
        subst h
        simp only [List.mem_cons]
        constructor
        · intro hx
          refine ⟨Or.inr hx, ?_⟩
          intro he
          subst he
          exact hnd.1 hx
        · rintro ⟨hx | hx, hne⟩
          · exact absurd hx hne
          · exact hx
      · rw [mapDelete_cons_ne k k0 v0 tl h, mapKeys_cons, mapKeys_cons]
        simp only [List.mem_cons, ih hnd.2]
        constructor
        · rintro (hx | ⟨hx, hne⟩)
          · subst hx
            exact ⟨Or.inl rfl, h⟩
          · exact ⟨Or.inr hx, hne⟩
        · rintro ⟨hx | hx, hne⟩
          · exact Or.inl hx
          · exact Or.inr ⟨hx, hne⟩

theorem nodup_mapKeys_mapDelete {α : Type} (m : List (String × α)) (k : String)
    (hnd : (mapKeys m).Nodup) : (mapKeys (mapDelete m k)).Nodup := by
  induction m with
  | nil => simp [mapDelete, mapKeys_nil]
  | cons hd tl ih =>
      obtain ⟨k0, v0⟩ := hd
      rw [mapKeys_cons, List.nodup_cons] at hnd
      by_cases h : k0 = k
      · rw [mapDelete_cons_eq k k0 v0 tl h]
        exact hnd.2
      · rw [mapDelete_cons_ne k k0 v0 tl h, mapKeys_cons, List.nodup_cons]
        refine ⟨?_, ih hnd.2⟩
        intro hmem
        rw [mem_mapKeys_mapDelete tl k k0 hnd.2] at hmem
        exact hnd.1 hmem.1

theorem toFinset_mapKeys_mapDelete {α : Type} (m : List (String × α)) (k : String)
    (hnd : (mapKeys m).Nodup) :
    (mapKeys (mapDelete m k)).toFinset = (mapKeys m).toFinset.erase k := by
  ext x
  simp only [List.mem_toFinset, Finset.mem_erase,
    mem_mapKeys_mapDelete m k x hnd]
  tauto

theorem length_eq_card_keys {α : Type} (m : List (String × α))
    (hnd : (mapKeys m).Nodup) : m.length = (mapKeys m).toFinset.card := by
  rw [List.toFinset_card_of_nodup hnd]
  simp [mapKeys]

theorem stepSetEnabled_registry (s : ManagerState) (b : Bool) :
    (stepSetEnabled s b).registry = s.registry := by
  simp only [stepSetEnabled]
  split
  · rw [startBridge_registry]
  · split
    · rw [stopBridge_registry]
    · rfl

theorem stepRegister_registry (s : ManagerState) (id : String) (h : BubbleHandler) :
    (stepRegister s id h).registry = mapSet s.registry id h := by
  simp only [stepRegister]
  split
  · rw [startBridge_registry]
  · rfl

theorem stepUnregister_registry (s : ManagerState) (id : String) :
    (stepUnregister s id).registry = mapDelete s.registry id := by
  simp only [stepUnregister]
  split
  · rw [stopBridge_registry]
  · rfl

/-- Identifier-set bookkeeping of the spec, read off the call sequence:
register inserts the id, unregister erases it. -/
def liveIdsFrom (acc : Finset String) : List Op → Finset String
  | [] => acc
  | Op.setEnabled _ :: rest => liveIdsFrom acc rest
  | Op.register i _ :: rest => liveIdsFrom (insert i acc) rest
  | Op.unregister i :: rest => liveIdsFrom (acc.erase i) rest

/-- The distinct identifiers that have been registered and not since
unregistered, per the spec's words. -/
def liveIds (ops : List Op) : Finset String := liveIdsFrom ∅ ops

theorem registry_tracks_liveIds (ops : List Op) (s : ManagerState)
    (acc : Finset String) (hnd : (mapKeys s.registry).Nodup)
    (hset : (mapKeys s.registry).toFinset = acc) :
    (mapKeys (runOps s ops).registry).Nodup ∧
      (mapKeys (runOps s ops).registry).toFinset = liveIdsFrom acc ops := by
  induction ops generalizing s acc with
  | nil => exact ⟨hnd, hset⟩
  | cons op rest ih =>
      cases op with
      | setEnabled b =>
          exact ih (stepSetEnabled s b) acc
            (by rw [stepSetEnabled_registry]; exact hnd)
            (by rw [stepSetEnabled_registry]; exact hset)
      | register i h =>
          exact ih (stepRegister s i h) (insert i acc)
            (by rw [stepRegister_registry]; exact nodup_mapKeys_mapSet _ _ _ hnd)
            (by rw [stepRegister_registry, toFinset_mapKeys_mapSet, hset])
      | unregister i =>
          exact ih (stepUnregister s i) (acc.erase i)
            (by rw [stepUnregister_registry]; exact nodup_mapKeys_mapDelete _ _ hnd)
            (by rw [stepUnregister_registry, toFinset_mapKeys_mapDelete _ _ hnd, hset])

/-- C5: for every call sequence from a fresh instance, getRegistrySize equals
the number of distinct identifiers registered and not since unregistered; and
re-registering an identifier replaces its handler without growing the size. -/
theorem registrySize_eq_distinct_live :
    (∀ ops : List Op,
      getRegistrySize (runOps freshState ops) = (liveIds ops).card) ∧
    (∀ (pre : List Op) (id : String) (h1 h2 : BubbleHandler),
      mapGet (runOps freshState
          (pre ++ [Op.register id h1, Op.register id h2])).registry id = some h2 ∧
      getRegistrySize (runOps freshState
          (pre ++ [Op.register id h1, Op.register id h2])) =
        getRegistrySize (runOps freshState (pre ++ [Op.register id h1]))) := by
  constructor
  · intro ops
    have h := registry_tracks_liveIds ops freshState ∅ (by simp [freshState, mapKeys])
      (by simp [freshState, mapKeys])
    rw [getRegistrySize, length_eq_card_keys _ h.1, h.2]
    rfl
  · intro pre id h1 h2
    have hrw : runOps freshState (pre ++ [Op.register id h1, Op.register id h2]) =
        stepOp (stepOp (runOps freshState pre) (Op.register id h1)) (Op.register id h2) := by
      simp [runOps, List.foldl_append]
    have hrw1 : runOps freshState (pre ++ [Op.register id h1]) =
        stepOp (runOps freshState pre) (Op.register id h1) := by
      simp [runOps, List.foldl_append]
    constructor
    · rw [hrw]
      simp only [stepOp, stepRegister_registry]
      exact mapGet_mapSet_self _ _ _
    · rw [hrw, hrw1]
      simp only [getRegistrySize, stepOp, stepRegister_registry]
      rw [mapSet_length]
      have hmem : id ∈ mapKeys (mapSet (runOps freshState pre).registry id h1) := by
        rw [mem_mapKeys_mapSet]
        exact Or.inl rfl
      rw [if_pos hmem]

/-! ### C2: the content query callback -/

/-- C2: for a registered id the content query records the id as
current-editing and returns the string its handler's getContent produces; for
an unregistered id it returns the undefined sentinel, clears the
current-editing id, and leaves the registry and its size unchanged. -/
theorem getSchema_query_semantics :
    (∀ (s : ManagerState) (id : String) (h : BubbleHandler),
      mapGet s.registry id = some h →
        getSchema s id =
          ({ s with currentEditingId := some id }, some h.getContent)) ∧
    (∀ (s : ManagerState) (id : String),
      mapGet s.registry id = none →
        (getSchema s id = ({ s with currentEditingId := none }, none) ∧
          (getSchema s id).1.registry = s.registry ∧
          getRegistrySize (getSchema s id).1 = getRegistrySize s)) := by
  constructor
  · intro s id h hget
    simp [getSchema, hget]
  · intro s id hget
    simp [getSchema, hget, getRegistrySize]

/-- Witness for C2: a manager with id "a" registered under content "X":
querying "a" records it as current-editing and returns "X"; querying "b"
returns the sentinel, clears the current-editing id, and keeps the
registry. -/
theorem getSchema_query_semantics_witness :
    (getSchema
        { registry := [("a", { content := "X" })], bridgeOpen := true,
          enabled := true, previewRoot := none, currentEditingId := none }
        "a"
      = ({ registry := [("a", { content := "X" })], bridgeOpen := true,
            enabled := true, previewRoot := none, currentEditingId := some "a" },
          some (BubbleHandler.getContent { content := "X" }))) ∧
    (getSchema
        { registry := [("a", { content := "X" })], bridgeOpen := true,
          enabled := true, previewRoot := none, currentEditingId := some "a" }
        "b"
      = ({ registry := [("a", { content := "X" })], bridgeOpen := true,
            enabled := true, previewRoot := none, currentEditingId := none },
          none)) := by
  constructor
  · exact getSchema_query_semantics.1
      { registry := [("a", { content := "X" })], bridgeOpen := true,
        enabled := true, previewRoot := none, currentEditingId := none }
      "a" { content := "X" } rfl
  · exact (getSchema_query_semantics.2
      { registry := [("a", { content := "X" })], bridgeOpen := true,
        enabled := true, previewRoot := none, currentEditingId := some "a" }
      "b" rfl).1

/-! ### C3: the content update callback -/

/-- C3: the content update returns false for an unregistered id; for a
registered id it invokes the handler's setContent with the value itself when
it is a string and with its 2-space-indented JSON serialization otherwise,
and returns true. -/
theorem updateSchema_update_semantics :
    (∀ (s : ManagerState) (v : SchemaValue) (id : String),
      mapGet s.registry id = none → updateSchema s v id = (s, false)) ∧
    (∀ (s : ManagerState) (v : SchemaValue) (id : String) (h : BubbleHandler),
      mapGet s.registry id = some h →
        ((updateSchema s v id).2 = true ∧
          mapGet (updateSchema s v id).1.registry id
            = some (h.setContent (coerceSchema v)) ∧
          (∀ str : String, v = SchemaValue.str str → coerceSchema v = str) ∧
          ((∀ str : String, v ≠ SchemaValue.str str) →
            coerceSchema v = jsonStringify 0 v))) := by
  constructor
  · intro s v id hget
    simp [updateSchema, hget]
  · intro s v id h hget
    refine ⟨?_, ?_, ?_, ?_⟩
    · simp [updateSchema, hget]
    · simp only [updateSchema, hget]
      exact mapGet_mapSet_self _ _ _
    · rintro str rfl
      rfl
    · intro hns
      cases v with
      | str s0 => exact absurd rfl (hns s0)
      | null => rfl
      | bool b => rfl
      | num n => rfl
      | arr xs => rfl
      | obj fs => rfl

/-- Witness for C3: updating registered id "a" with the string "Y" stores
"Y"; updating it with an object stores the 2-space serialization; updating an
unregistered id reports failure and changes nothing. -/
theorem updateSchema_update_semantics_witness :
    ((updateSchema
        { registry := [("a", { content := "X" })], bridgeOpen := true,
          enabled := true, previewRoot := none, currentEditingId := some "a" }
        (SchemaValue.str "Y") "a").2 = true ∧
      mapGet (updateSchema
        { registry := [("a", { content := "X" })], bridgeOpen := true,
          enabled := true, previewRoot := none, currentEditingId := some "a" }
        (SchemaValue.str "Y") "a").1.registry "a"
        = some (BubbleHandler.setContent { content := "X" }
            (coerceSchema (SchemaValue.str "Y")))) ∧
    (mapGet (updateSchema
        { registry := [("a", { content := "X" })], bridgeOpen := true,
          enabled := true, previewRoot := none, currentEditingId := some "a" }
        (SchemaValue.obj [("k", SchemaValue.str "val")]) "a").1.registry "a"
        = some (BubbleHandler.setContent { content := "X" }
            (jsonStringify 0 (SchemaValue.obj [("k", SchemaValue.str "val")])))) ∧
    updateSchema
        { registry := [("a", { content := "X" })], bridgeOpen := true,
          enabled := true, previewRoot := none, currentEditingId := some "a" }
        (SchemaValue.str "Y") "missing"
      = ({ registry := [("a", { content := "X" })], bridgeOpen := true,
            enabled := true, previewRoot := none, currentEditingId := some "a" },
          false) := by
  refine ⟨⟨?_, ?_⟩, ?_, ?_⟩
  · exact (updateSchema_update_semantics.2
      { registry := [("a", { content := "X" })], bridgeOpen := true,
        enabled := true, previewRoot := none, currentEditingId := some "a" }
      (SchemaValue.str "Y") "a" { content := "X" } rfl).1
  · exact (updateSchema_update_semantics.2
      { registry := [("a", { content := "X" })], bridgeOpen := true,
        enabled := true, previewRoot := none, currentEditingId := some "a" }
      (SchemaValue.str "Y") "a" { content := "X" } rfl).2.1
  · have h := (updateSchema_update_semantics.2
      { registry := [("a", { content := "X" })], bridgeOpen := true,
        enabled := true, previewRoot := none, currentEditingId := some "a" }
      (SchemaValue.obj [("k", SchemaValue.str "val")]) "a"
      { content := "X" } rfl).2.1
    rw [h]
    rfl
  · exact updateSchema_update_semantics.1
      { registry := [("a", { content := "X" })], bridgeOpen := true,
        enabled := true, previewRoot := none, currentEditingId := some "a" }
      (SchemaValue.str "Y") "missing" rfl

/-! ### C6: destroy resets the singleton -/

/-- C6: destroy closes the bridge, clears the registry and the
current-editing id, drops the preview root, and drops the singleton, so the
next getInstance returns a fresh instance with registry size 0 and
enabled false; repeated destroy, including with no instance, is a no-op. -/
theorem destroy_resets_singleton :
    (∀ inst : Option ManagerState,
      destroySingleton (destroySingleton inst) = destroySingleton inst) ∧
    destroySingleton none = none ∧
    (∀ inst : Option ManagerState,
      (getInstance (destroySingleton inst)).1 = freshState) ∧
    getRegistrySize freshState = 0 ∧
    freshState.enabled = false ∧
    (∀ s : ManagerState,
      (destroyedState s).bridgeOpen = false ∧
      (destroyedState s).registry = [] ∧
      (destroyedState s).currentEditingId = none ∧
      (destroyedState s).previewRoot = none) := by
  refine ⟨?_, rfl, ?_, rfl, rfl, ?_⟩
  · intro inst
    cases inst <;> rfl
  · intro inst
    cases inst <;> rfl
  · intro s
    refine ⟨?_, rfl, rfl, rfl⟩
    simp [destroyedState, stopBridge_bridgeOpen]

/-! ### C9: missing render container -/

/-- C9: when the document lookup of the container id yields nothing, the
built-in preview silently no-ops: the state is unchanged (nothing rendered,
no render target created) and no teardown function is returned. -/
theorem defaultPreview_missing_container_noop
    (document : String → Bool) (s : ManagerState) (v : SchemaValue)
    (containerId : String) (hdoc : document containerId = false) :
    createDefaultPreview document s v containerId = (s, none) := by
  simp [createDefaultPreview, hdoc]

/-- Witness for C9 at a concrete document in which no container exists. -/
theorem defaultPreview_missing_container_noop_witness :
    createDefaultPreview (fun _ => false) freshState (SchemaValue.str "hello")
      "container-1" = (freshState, none) :=
  defaultPreview_missing_container_noop (fun _ => false) freshState
    (SchemaValue.str "hello") "container-1" rfl

/-! ### C7: preview dispatch -/

/-- C7 as stated is false: here the current-editing identifier is set (to the
empty string) and its registered handler supplies a custom renderer returning
the teardown `Teardown.custom 0`, yet the callback returns the built-in
preview's teardown instead - the `if (this.currentEditingId)` guard treats
the empty string as unset. -/
theorem renderPreview_empty_id_counterexample :
    (renderPreviewCb (fun _ => true)
        { registry :=
            [("",
              { content := "x",
                renderPreview := some (fun _ _ => some (Teardown.custom 0)) })],
          bridgeOpen := true, enabled := true, previewRoot := none,
          currentEditingId := some "" }
        (SchemaValue.str "hello") "c").2 = some Teardown.unmountDefault ∧
    some Teardown.unmountDefault ≠ some (Teardown.custom 0) := by
  constructor
  · rfl
  · simp

/-- The render-target choice of `createDefaultPreview`: reuse the existing
preview root, re-rendering the coerced value into it, or create one bound to
the container. -/
def nextPreviewRoot (s : ManagerState) (v : SchemaValue) (c : String) :
    PreviewRoot :=
  match s.previewRoot with
  | some r => { r with rendered := coerceSchema v }
  | none => { container := c, rendered := coerceSchema v }

/-- C7 amended: when the current-editing identifier is set to a non-empty id
whose registered handler supplies a custom renderer, the callback returns
exactly that renderer applied to the value and container id, with the manager
state unchanged; in every other case (no current-editing id, id no longer
registered, no custom renderer) it falls back to the built-in preview, which
reuses the existing render target (or creates one bound to the container)
and returns the teardown that unmounts and clears that target when the
container is found, and no-ops with no teardown when it is missing. -/
theorem renderPreview_dispatch_semantics :
    (∀ (document : String → Bool) (s : ManagerState) (v : SchemaValue)
        (c eid : String) (h : BubbleHandler)
        (rp : SchemaValue → String → Option Teardown),
      s.currentEditingId = some eid → eid ≠ "" →
      mapGet s.registry eid = some h → h.renderPreview = some rp →
      renderPreviewCb document s v c = (s, rp v c)) ∧
    (∀ (document : String → Bool) (s : ManagerState) (v : SchemaValue)
        (c : String),
      s.currentEditingId = none →
      renderPreviewCb document s v c = createDefaultPreview document s v c) ∧
    (∀ (document : String → Bool) (s : ManagerState) (v : SchemaValue)
        (c eid : String),
      s.currentEditingId = some eid → mapGet s.registry eid = none →
      renderPreviewCb document s v c = createDefaultPreview document s v c) ∧
    (∀ (document : String → Bool) (s : ManagerState) (v : SchemaValue)
        (c eid : String) (h : BubbleHandler),
      s.currentEditingId = some eid → mapGet s.registry eid = some h →
      h.renderPreview = none →
      renderPreviewCb document s v c = createDefaultPreview document s v c) ∧
    (∀ (document : String → Bool) (s : ManagerState) (v : SchemaValue)
        (c : String),
      document c = true →
      createDefaultPreview document s v c =
        ({ s with previewRoot := some (nextPreviewRoot s v c) },
          some Teardown.unmountDefault)) ∧
    (∀ (document : String → Bool) (s : ManagerState) (v : SchemaValue)
        (c : String),
      document c = false → createDefaultPreview document s v c = (s, none)) ∧
    (∀ s : ManagerState, (runDefaultTeardown s).previewRoot = none) := by
  refine ⟨?_, ?_, ?_, ?_, ?_, ?_, ?_⟩
  · intro document s v c eid h rp hcur hne hget hrp
    have hie : eid.isEmpty = false := by
      rw [Bool.eq_false_iff]
      intro hh
      exact hne ((String.isEmpty_iff eid).mp hh)
    simp [renderPreviewCb, hcur, hie, hget, hrp]
  · intro document s v c hcur
    simp [renderPreviewCb, hcur]
  · intro document s v c eid hcur hget
    by_cases hie : eid.isEmpty <;> simp [renderPreviewCb, hcur, hie, hget]
  · intro document s v c eid h hcur hget hrp
    by_cases hie : eid.isEmpty <;> simp [renderPreviewCb, hcur, hie, hget, hrp]
  · intro document s v c hdoc
    simp [createDefaultPreview, nextPreviewRoot, hdoc]
  · intro document s v c hdoc
    simp [createDefaultPreview, hdoc]
  · intro s
    cases hp : s.previewRoot <;> simp [runDefaultTeardown, hp]

/-- Witness for the amended C7: a non-empty current-editing id "a" with a
custom renderer is delegated to; the default preview on a found container
creates the root and returns the built-in teardown, which clears it. -/
theorem renderPreview_dispatch_semantics_witness :
    renderPreviewCb (fun _ => true)
        { registry :=
            [("a",
              { content := "x",
                renderPreview := some (fun _ _ => some (Teardown.custom 1)) })],
          bridgeOpen := true, enabled := true, previewRoot := none,
          currentEditingId := some "a" }
        (SchemaValue.str "hello") "c"
      = ({ registry :=
             [("a",
               { content := "x",
                 renderPreview := some (fun _ _ => some (Teardown.custom 1)) })],
           bridgeOpen := true, enabled := true, previewRoot := none,
           currentEditingId := some "a" },
         some (Teardown.custom 1)) ∧
    createDefaultPreview (fun _ => true)
        { registry := [], bridgeOpen := true, enabled := true,
          previewRoot := none, currentEditingId := none }
        (SchemaValue.str "hello") "c"
      = ({ registry := [], bridgeOpen := true, enabled := true,
            previewRoot := some ({ container := "c", rendered := "hello" }),
            currentEditingId := none },
         some Teardown.unmountDefault) ∧
    (runDefaultTeardown
        { registry := [], bridgeOpen := true, enabled := true,
          previewRoot := some ({ container := "c", rendered := "hello" }),
          currentEditingId := none }).previewRoot = none := by
  refine ⟨?_, ?_, ?_⟩
  · exact renderPreview_dispatch_semantics.1 (fun _ => true)
      { registry :=
          [("a",
            { content := "x",
              renderPreview := some (fun _ _ => some (Teardown.custom 1)) })],
        bridgeOpen := true, enabled := true, previewRoot := none,
        currentEditingId := some "a" }
      (SchemaValue.str "hello") "c" "a"
      { content := "x", renderPreview := some (fun _ _ => some (Teardown.custom 1)) }
      (fun _ _ => some (Teardown.custom 1)) rfl (by decide) rfl rfl
  · exact renderPreview_dispatch_semantics.2.2.2.2.1 (fun _ => true)
      { registry := [], bridgeOpen := true, enabled := true,
        previewRoot := none, currentEditingId := none }
      (SchemaValue.str "hello") "c" rfl
  · exact renderPreview_dispatch_semantics.2.2.2.2.2.2
      { registry := [], bridgeOpen := true, enabled := true,
        previewRoot := some ({ container := "c", rendered := "hello" }),
        currentEditingId := none }

/-! ### C8: synchronous read-back after the hook's setContent -/

/-- The handler the hook registers with the manager: `getContent` reads the
ref cell of the hook's state. -/
def hookHandler (rs : RefState)
    (rp : Option (SchemaValue → String → Option Teardown)) : BubbleHandler :=
  { content := rs.ref, renderPreview := rp }

/-- C8: after the hook's setContent runs with a new content string, the
registered handler's getContent (which reads the ref cell) synchronously
returns that string, and onContentChange is invoked exactly once, with the
new content. -/
theorem hookSetContent_synchronous_read (rs : RefState) (c : String)
    (rp : Option (SchemaValue → String → Option Teardown)) :
    hookHandlerGetContent (hookSetContent rs c).1 = c ∧
    (hookHandler (hookSetContent rs c).1 rp).getContent = c ∧
    (hookSetContent rs c).2 = [c] :=
  ⟨rfl, rfl, rfl⟩

/-! ### C10: the hook turns on the process-wide flag and never turns it off -/

theorem stepSetEnabled_enabled (s : ManagerState) (b : Bool) :
    (stepSetEnabled s b).enabled = b := by
  simp only [stepSetEnabled]
  split
  · rw [startBridge_enabled]
  · split
    · rw [stopBridge_enabled]
    · rfl

theorem stepRegister_enabled (s : ManagerState) (id : String) (h : BubbleHandler) :
    (stepRegister s id h).enabled = s.enabled := by
  simp only [stepRegister]
  split
  · rw [startBridge_enabled]
  · rfl

theorem stepUnregister_enabled (s : ManagerState) (id : String) :
    (stepUnregister s id).enabled = s.enabled := by
  simp only [stepUnregister]
  split
  · rw [stopBridge_enabled]
  · rfl

theorem hookRegistrationEffect_keeps_enabled (s : ManagerState)
    (id : Option String) (en : Bool) (h : BubbleHandler)
    (hs : s.enabled = true) :
    (hookRegistrationEffect id en h s).enabled = true := by
  cases id with
  | none =>
      by_cases hc : (!(idTruthy none) || !en) = true <;>
        simp [hookRegistrationEffect, hc, hs]
  | some i =>
      by_cases hc : (!(idTruthy (some i)) || !en) = true
      · by_cases hu : (!i.isEmpty && managerHas s i) = true <;>
          simp [hookRegistrationEffect, hc, hu, stepUnregister_enabled, hs]
      · simp [hookRegistrationEffect, hc, stepRegister_enabled,
          stepSetEnabled_enabled]

/-- C10: a registration-effect run with a truthy id and enabled true calls
setEnabled(true) on the manager before registering, so afterwards the
process-wide flag is true and the id is registered; and no hook-driven
operation (any effect run or cleanup) ever resets the flag, so once true it
stays true until destroy() or an explicit setEnabled(false). -/
theorem hook_registration_turns_on_flag :
    (∀ (s : ManagerState) (i : String) (h : BubbleHandler), i ≠ "" →
      (hookRegistrationEffect (some i) true h s
          = stepRegister (stepSetEnabled s true) i h ∧
        (hookRegistrationEffect (some i) true h s).enabled = true ∧
        managerHas (hookRegistrationEffect (some i) true h s) i = true)) ∧
    (∀ (s : ManagerState) (ops : List HookOp), s.enabled = true →
      (runHookOps s ops).enabled = true) := by
  constructor
  · intro s i h hne
    have hie : i.isEmpty = false := by
      rw [Bool.eq_false_iff]
      intro hh
      exact hne ((String.isEmpty_iff i).mp hh)
    have heq : hookRegistrationEffect (some i) true h s
        = stepRegister (stepSetEnabled s true) i h := by
      simp [hookRegistrationEffect, idTruthy, hie]
    refine ⟨heq, ?_, ?_⟩
    · rw [heq, stepRegister_enabled, stepSetEnabled_enabled]
    · rw [heq]
      simp only [managerHas, mapHas, stepRegister_registry, mapGet_mapSet_self,
        Option.isSome_some]
  · intro s ops hs
    induction ops generalizing s with
    | nil => exact hs
    | cons op rest ih =>
        cases op with
        | effect id en h =>
            exact ih (hookRegistrationEffect id en h s)
              (hookRegistrationEffect_keeps_enabled s id en h hs)
        | cleanup id =>
            exact ih (stepUnregister s id) ((stepUnregister_enabled s id).trans hs)

/-- Witness for C10: mounting a hook with id "b" on a fresh (disabled)
manager turns the flag on and registers "b"; the flag then survives a
further effect run and a cleanup. -/
theorem hook_registration_turns_on_flag_witness :
    ((hookRegistrationEffect (some "b") true { content := "hello" } freshState).enabled
        = true ∧
      managerHas (hookRegistrationEffect (some "b") true { content := "hello" }
        freshState) "b" = true) ∧
    (runHookOps (hookRegistrationEffect (some "b") true { content := "hello" }
        freshState)
      [HookOp.effect (some "b") false { content := "hello" },
        HookOp.cleanup "b"]).enabled = true := by
  refine ⟨⟨?_, ?_⟩, ?_⟩
  · exact (hook_registration_turns_on_flag.1 freshState "b"
      { content := "hello" } (by decide)).2.1
  · exact (hook_registration_turns_on_flag.1 freshState "b"
      { content := "hello" } (by decide)).2.2
  · exact hook_registration_turns_on_flag.2 _
      [HookOp.effect (some "b") false { content := "hello" },
        HookOp.cleanup "b"]
      ((hook_registration_turns_on_flag.1 freshState "b"
        { content := "hello" } (by decide)).2.1)

end MdEditor
